import Mathlib

/-!
Shallow embedding of the `go-worktree` tool (git.go, main.go, the file-copy
helper and the auth helper) together with proofs about the claims of its
specification.  Pure string manipulation is modelled on `List Char`; the
results of external subprocesses (git, cp, fd, direnv) and of OS calls are
passed in as explicit oracle arguments, so each embedded function is a pure
function of its inputs exactly mirroring the Go control flow.
-/

namespace GoWorktree

/-! ### Basic string helpers mirroring Go's `strings` package -/

/-- Does the second list start with the first one?  Mirrors the prefix test
used by Go's `strings.Contains` search loop. -/
def startsWithList : List Char → List Char → Bool
  | [], _ => true
  | _ :: _, [] => false
  | a :: as, b :: bs => a == b && startsWithList as bs

/-- Go `strings.Contains(s, sub)`: `sub` occurs as a contiguous substring of
`s` (on the character level; all strings in play are ASCII). -/
def containsSub (sub : List Char) : List Char → Bool
  | [] => startsWithList sub []
  | c :: rest => startsWithList sub (c :: rest) || containsSub sub rest

/-- `containsSub` lifted to `String`. -/
def containsSubStr (s sub : String) : Bool :=
  containsSub sub.data s.data

/-- Go `strings.Split(s, sep)` for a one-character separator: splits at every
occurrence, keeping empty fields, and always returns at least one field. -/
def splitChar (sep : Char) : List Char → List (List Char)
  | [] => [[]]
  | c :: cs =>
    match splitChar sep cs with
    | [] => [[]]
    | h :: t => if c == sep then [] :: h :: t else (c :: h) :: t

/-- Go `strings.Join(parts, sep)` for a one-character separator. -/
def joinChar (sep : Char) : List (List Char) → List Char
  | [] => []
  | [p] => p
  | p :: ps => p ++ sep :: joinChar sep ps

/-- Go `unicode.IsSpace` restricted to the Latin-1 range (the only characters
that appear in this program's subprocess output). -/
def goIsSpace (c : Char) : Bool :=
  c == ' ' || c == '\t' || c == '\n' || (c == '\x0b' || c == '\x0c' || c == '\r')
    || c == '\x85' || c == '\xa0'

/-- Go `strings.TrimSpace`: drop whitespace from both ends. -/
def goTrimSpace (l : List Char) : List Char :=
  ((l.dropWhile goIsSpace).reverse.dropWhile goIsSpace).reverse

/-- `goTrimSpace` lifted to `String`. -/
def goTrimSpaceStr (s : String) : String :=
  String.mk (goTrimSpace s.data)

/-- Helper for `replaceList`: when `skip` is positive the character belongs
to an occurrence of `old` already replaced, so it is dropped. -/
def replaceAux (old new : List Char) : Nat → List Char → List Char
  | _, [] => []
  | skip + 1, _ :: cs => replaceAux old new skip cs
  | 0, c :: cs =>
    if startsWithList old (c :: cs) && !old.isEmpty then
      new ++ replaceAux old new (old.length - 1) cs
    else
      c :: replaceAux old new 0 cs

/-- Go `strings.Replace(s, old, new, -1)` (= `strings.ReplaceAll`): replace
every non-overlapping occurrence of `old` by `new`, scanning left to right.
For the empty `old` Go inserts `new` at every position; the program only
calls this with `old = "/"`, so that branch is irrelevant here. -/
def replaceList (old new : List Char) (l : List Char) : List Char :=
  replaceAux old new 0 l

/-- `strings.ReplaceAll(branchname, "/", "_")` from `CreateWorktree`
(main.go): the directory name of the new worktree. -/
def sanitizeName (branchname : String) : String :=
  String.mk (replaceList ['/'] ['_'] branchname.data)

/-! ### Go `path/filepath` lexical path cleaning

`CreateWorktree` computes `filepath.Join("..", dirname)`.  Go's `Join`
concatenates the non-empty elements with `/` and runs the result through
`Clean`, which processes the path component-wise: empty and `.` components
vanish, `..` pops a previous non-`..` component (or is kept at the start of a
relative path), and an empty outcome becomes `.`. -/

/-- One step of `Clean`'s component processing. -/
def cleanStep (rooted : Bool) (acc : List (List Char)) (comp : List Char) :
    List (List Char) :=
  if comp == [] || comp == ['.'] then acc
  else if comp == ['.', '.'] then
    if acc ≠ [] ∧ acc.getLast? ≠ some ['.', '.'] then acc.dropLast
    else if rooted then acc
    else acc ++ [comp]
  else acc ++ [comp]

/-- Go `filepath.Clean` (Unix rules), component-wise. -/
def goClean (s : String) : String :=
  if s.data = [] then "."
  else
    let rooted := s.data.headD ' ' == '/'
    let comps := splitChar '/' s.data
    let out := comps.foldl (cleanStep rooted) []
    if rooted then
      if out = [] then "/" else String.mk ('/' :: joinChar '/' out)
    else
      if out = [] then "." else String.mk (joinChar '/' out)

/-- Go `filepath.Join(a, b)`: join the non-empty elements with `/`, then
`Clean` the result (`Join` of all-empty elements is `""`). -/
def goJoin2 (a b : String) : String :=
  if a.data = [] && b.data = [] then ""
  else if a.data = [] then goClean b
  else if b.data = [] then goClean a
  else goClean (String.mk (a.data ++ '/' :: b.data))

/-- The worktree path computed by `CreateWorktree` (main.go):
`filepath.Join("..", strings.ReplaceAll(branchname, "/", "_"))`. -/
def worktreePathOf (branchname : String) : String :=
  goJoin2 ".." (sanitizeName branchname)

/-! ### The untracked-files pattern and its matching semantics

`getUntrackedFilesPattern` builds a Go regular expression of the shape
`^(frag1|frag2|...)$` whose fragments use only literal characters,
backslash escapes and the `.` wildcard.  We embed exactly that regex
subset: an atom is a literal character or the any-character wildcard
(which in Go matches every character except a newline), a fragment is a
sequence of atoms, and the anchored alternation matches a string iff some
fragment matches the whole string. -/

/-- One atom of a regex fragment. -/
inductive RAtom where
  | lit (c : Char) : RAtom
  | anyc : RAtom
deriving DecidableEq, Repr

/-- Parse a fragment of the generated pattern: `\c` is the literal `c`,
an unescaped `.` is the any-character wildcard, everything else is a
literal. -/
def parseFrag : List Char → List RAtom
  | [] => []
  | '\\' :: c :: rest => .lit c :: parseFrag rest
  | '.' :: rest => .anyc :: parseFrag rest
  | c :: rest => .lit c :: parseFrag rest

/-- A fragment matches a whole string: same length, literals equal, the
wildcard takes any character other than `'\n'` (Go's default `.`). -/
def fragMatches : List RAtom → List Char → Bool
  | [], [] => true
  | .lit c :: as, d :: ds => c == d && fragMatches as ds
  | .anyc :: as, d :: ds => d != '\n' && fragMatches as ds
  | _, _ => false

/-- Strip the `^( ... )$` anchoring produced by `getUntrackedFilesPattern`,
returning the alternation body. -/
def anchoredBody : List Char → Option (List Char)
  | '^' :: '(' :: rest =>
    match rest.reverse with
    | '$' :: ')' :: mid => some mid.reverse
    | _ => none
  | _ => none

/-- Go `regexp.MatchString(p, s)` for the anchored alternation patterns this
program generates: some `|`-separated fragment matches all of `s`. -/
def reMatch (p s : String) : Bool :=
  match anchoredBody p.data with
  | none => false
  | some body => (splitChar '|' body).any fun frag => fragMatches (parseFrag frag) s.data

/-- The hardcoded default pattern list of `getUntrackedFilesPattern`
(files.go): `` `\.env|\.envrc|\.env.local|\.mise.toml|\.tool-versions|mise.toml` ``. -/
def defaultPatterns : String :=
  "\\.env|\\.envrc|\\.env.local|\\.mise.toml|\\.tool-versions|mise.toml"

/-- `getUntrackedFilesPattern` (files.go).  The `git config --get-all
worktree.untrackedfiles` subprocess result is passed in as an oracle:
`none` when the command failed, `some out` with its raw stdout otherwise.
On failure or blank output the default list is used; otherwise the
trimmed output is split on newlines and the lines joined with `|`. -/
def getUntrackedFilesPattern (configOutput : Option String) : String :=
  match configOutput with
  | none => "^(" ++ defaultPatterns ++ ")$"
  | some out =>
    let customPatterns := goTrimSpaceStr out
    if customPatterns ≠ "" then
      "^(" ++ String.mk (joinChar '|' (splitChar '\n' customPatterns.data)) ++ ")$"
    else
      "^(" ++ defaultPatterns ++ ")$"

/-! ### File discovery: the fd backend and the walk fallback -/

/-- The argument list `findFilesWithFd` (files.go) passes to the external
`fd` tool: unrestricted search for the pattern, excluding `node_modules`. -/
def fdArgs (pattern : String) : List String :=
  ["-u", pattern, "-E", "node_modules"]

/-- `findFilesWithFd` (files.go), given the raw stdout of the `fd`
subprocess: trim it, split on newlines, and map the single-empty-field
result of an empty output to the empty list. -/
def findFilesWithFd (output : String) : List String :=
  let files := splitChar '\n' (goTrimSpace output.data)
  if files.length == 1 && files.headD [' '] == [] then []
  else files.map String.mk

/-- A file-system tree for the `filepath.Walk` fallback: a leaf file or a
directory with a list of children. -/
inductive FSTree where
  | file (name : String) : FSTree
  | dir (name : String) (children : List FSTree) : FSTree
deriving Repr

/-- The name of a tree node. -/
def FSTree.name : FSTree → String
  | .file n => n
  | .dir n _ => n

/-- `filepath.Join(parent, name)` for the shapes `filepath.Walk` produces:
children of the root `"."` get their bare name, deeper entries get
`parent/name`. -/
def joinWalkPath (parent name : String) : String :=
  if parent = "." then name else parent ++ "/" ++ name

mutual

/-- `filepath.Walk` with the callback of `findFilesWithWalk` (files.go),
on one node at the given path.  Returns the collected files and the list
of paths the callback was invoked on.  The callback skips every path
containing `node_modules` with a plain `nil` return (not
`filepath.SkipDir`), so the walk still recurses into such directories;
a file is collected when its path passes that test and its name matches
the compiled pattern. -/
def walkNode (re : String → Bool) (path : String) :
    FSTree → List String × List String
  | .file n =>
    (if !containsSubStr path "node_modules" && re n then [path] else [], [path])
  | .dir _ children =>
    let rest := walkChildren re path children
    (rest.1, path :: rest.2)

/-- Walk the children of a directory at `path` in order. -/
def walkChildren (re : String → Bool) (path : String) :
    List FSTree → List String × List String
  | [] => ([], [])
  | t :: ts =>
    let first := walkNode re (joinWalkPath path t.name) t
    let rest := walkChildren re path ts
    (first.1 ++ rest.1, first.2 ++ rest.2)

end

/-- `findFilesWithWalk` (files.go): walk the repository root `"."` with the
matcher; the first component is the returned file list, the second the
trace of visited paths. -/
def findFilesWithWalk (re : String → Bool) (rootEntries : List FSTree) :
    List String × List String :=
  let rest := walkChildren re "." rootEntries
  (rest.1, "." :: rest.2)

/-! ### The copy operation `copyWithCOW` -/

/-- The ordered flag lists `copyWithCOW` (files.go) hands to `cp`:
BSD/macOS copy-on-write, GNU copy-on-write, then a plain recursive copy. -/
def copyStrategies : List (List String) :=
  [["-Rc"], ["-R", "--reflink"], ["-R"]]

/-- Try the strategies in order; `cp` success for a flag list is given by
the oracle `runCp`.  Returns the result and the list of attempted flag
lists. -/
def tryStrategies (runCp : List String → Bool) (src dest : String) :
    List (List String) → Except String Unit × List (List String)
  | [] => (.error ("failed to copy " ++ src ++ " to " ++ dest), [])
  | st :: rest =>
    if runCp st then (.ok (), [st])
    else
      let r := tryStrategies runCp src dest rest
      (r.1, st :: r.2)

/-- `copyWithCOW` (files.go): create the destination's parent directory
(its success is the oracle `mkdirOk`; on failure the copy aborts with that
error before any `cp` attempt), then try each strategy in order, the first
success winning; when all fail, report an error naming source and
destination. -/
def copyWithCOW (mkdirOk : Bool) (runCp : List String → Bool)
    (src dest : String) : Except String Unit × List (List String) :=
  if !mkdirOk then (.error "mkdir failed", [])
  else tryStrategies runCp src dest copyStrategies

/-! ### Branch resolution and worktree creation (git.go) -/

/-- The state of the repository's reference store, as `createWorktree`
(git.go) sees it: resolved local branch heads (`refs/heads/<name>`),
resolved remote-tracking heads of `origin` (`refs/remotes/origin/<name>`),
and the commit HEAD resolves to.  Commits are abstract (`Nat`). -/
structure RepoState where
  localBranches : String → Option Nat
  remoteBranches : String → Option Nat
  headHash : Nat

/-- `repository.Storer.SetReference` of a local branch reference. -/
def setLocalBranch (r : RepoState) (b : String) (h : Nat) : RepoState :=
  { r with localBranches := fun n => if n = b then some h else r.localBranches n }

/-- `branchExistsLocally` (git.go): does `refs/heads/<name>` resolve? -/
def branchExistsLocally (r : RepoState) (b : String) : Bool :=
  (r.localBranches b).isSome

/-- `branchExistsOnRemote` (git.go): does `refs/remotes/origin/<name>`
resolve? -/
def branchExistsOnRemote (r : RepoState) (b : String) : Bool :=
  (r.remoteBranches b).isSome

/-- `createWorktree` (git.go): the three-state branch resolution.  A local
branch is reused as is; otherwise a remote branch of `origin` is
materialised as a local reference at the remote's commit; otherwise a new
local reference at HEAD is written.  Returns the updated reference store,
the resolved commit, and the argument list of the `git worktree add`
subprocess that attaches the worktree. -/
def createWorktree (r : RepoState) (branchname worktreePath : String) :
    RepoState × Nat × List String :=
  let cmd := ["git", "worktree", "add", worktreePath, branchname]
  if branchExistsLocally r branchname then
    (r, (r.localBranches branchname).getD 0, cmd)
  else
    match r.remoteBranches branchname with
    | some h => (setLocalBranch r branchname h, h, cmd)
    | none => (setLocalBranch r branchname r.headHash, r.headHash, cmd)

/-! ### The orchestrator `CreateWorktree` (main.go) -/

/-- The results of the fallible steps `CreateWorktree` (main.go) performs,
passed in as oracles: `none` is success, `some msg` a failure with that
message.  `verbose` is the `-v` flag. -/
structure StepResults where
  initErr : Option String
  pullErr : Option String
  createErr : Option String
  nodeModulesErr : Option String
  untrackedErr : Option String
  direnvErr : Option String
  chdirErr : Option String
  verbose : Bool

/-- The observable outcome of one `CreateWorktree` run: the returned error
(if any), the yellow `warn` lines, and the `logger.Printf` lines, in
order. -/
structure Outcome where
  err : Option String
  warnings : List String
  logs : List String
deriving Repr

/-- `CreateWorktree` (main.go).  Mirrors the control flow: an `initGitRepo`
error returns immediately; a pull error is silent when its message contains
`no upstream` and otherwise warned only in verbose mode; a `createWorktree`
error returns wrapped in `ErrWorktreeCreationFailed`; node-modules copy,
untracked-files copy and direnv setup failures are logged or warned only;
a `Chdir` failure returns an error; otherwise success. -/
def runCreateWorktree (st : StepResults) : Outcome :=
  match st.initErr with
  | some e => ⟨some e, [], []⟩
  | none =>
    let pullWarns :=
      match st.pullErr with
      | none => []
      | some msg =>
        if containsSubStr msg "no upstream" then []
        else if st.verbose then ["Unable to pull: " ++ msg] else []
    match st.createErr with
    | some e => ⟨some ("failed to create git worktree: " ++ e), pullWarns, []⟩
    | none =>
      let logs1 :=
        match st.nodeModulesErr with
        | some e => ["Error copying node_modules: " ++ e]
        | none => []
      let warns1 :=
        match st.untrackedErr with
        | some e => ["Error copying untracked files: " ++ e]
        | none => []
      let logs2 :=
        match st.direnvErr with
        | some e => ["Error setting up direnv: " ++ e]
        | none => []
      match st.chdirErr with
      | some e =>
        ⟨some ("failed to change to worktree directory: " ++ e),
          pullWarns ++ warns1, logs1 ++ logs2⟩
      | none => ⟨none, pullWarns ++ warns1, logs1 ++ logs2⟩

/-- `main` (main.go): a `CreateWorktree` error goes through `die`, which
exits with status 1; otherwise the process exits 0. -/
def mainExitCode (st : StepResults) : Nat :=
  match (runCreateWorktree st).err with
  | some _ => 1
  | none => 0

/-! ### `initGitRepo` (git.go) -/

/-- The working-directory state of the process. -/
structure ProcState where
  cwd : String
deriving Repr, DecidableEq

/-- `initGitRepo` (git.go), with git discovery and `os.Chdir` as oracles:
`detect cwd` is the root the enclosing repository resolves to (`none`
when the current directory is not inside a git repository, making the
call fail with `ErrNotInGitRepo`), and `chdirOk root` tells whether
`os.Chdir(root)` succeeds.  On success the repository root is returned and
the process working directory has been changed to it. -/
def initGitRepo (detect : String → Option String) (chdirOk : String → Bool)
    (st : ProcState) : Except String (String × ProcState) :=
  match detect st.cwd with
  | none => .error "not in a git repository"
  | some root =>
    if chdirOk root then .ok (root, ⟨root⟩)
    else .error "failed to change to git root directory"

/-- A small concrete repository state used to instantiate theorems: local
branch `main` at commit 5, remote branch `origin/dev` at commit 7, HEAD at
commit 3. -/
def repoA : RepoState :=
  ⟨fun n => if n = "main" then some 5 else none,
   fun n => if n = "dev" then some 7 else none, 3⟩

/-! ## Theorems -/

/-- Claim C1: worktree creation follows the three-state branch resolution
machine of `createWorktree` (git.go): an existing local branch is reused
with the reference store untouched; a branch existing only under the
`origin` remote is materialised as a local reference at the remote commit;
otherwise a fresh local reference at the current HEAD commit is written.
In every state the worktree is attached by the same `git worktree add`
invocation on the branch name. -/
theorem claim_C1_branch_resolution (r : RepoState) (b p : String) :
    (∀ h, r.localBranches b = some h →
        createWorktree r b p = (r, h, ["git", "worktree", "add", p, b]))
    ∧ (∀ h, r.localBranches b = none → r.remoteBranches b = some h →
        (createWorktree r b p).1.localBranches b = some h
        ∧ (∀ n, n ≠ b → (createWorktree r b p).1.localBranches n = r.localBranches n)
        ∧ (createWorktree r b p).1.remoteBranches = r.remoteBranches
        ∧ (createWorktree r b p).1.headHash = r.headHash
        ∧ (createWorktree r b p).2.1 = h
        ∧ (createWorktree r b p).2.2 = ["git", "worktree", "add", p, b])
    ∧ (r.localBranches b = none → r.remoteBranches b = none →
        (createWorktree r b p).1.localBranches b = some r.headHash
        ∧ (∀ n, n ≠ b → (createWorktree r b p).1.localBranches n = r.localBranches n)
        ∧ (createWorktree r b p).1.remoteBranches = r.remoteBranches
        ∧ (createWorktree r b p).2.1 = r.headHash
        ∧ (createWorktree r b p).2.2 = ["git", "worktree", "add", p, b]) := by
  refine ⟨?_, ?_, ?_⟩
  · intro h hl
    simp [createWorktree, branchExistsLocally, hl]
  · intro h hl hr
    refine ⟨?_, ?_, ?_, ?_, ?_, ?_⟩ <;>
      simp [createWorktree, branchExistsLocally, setLocalBranch, hl, hr]
    intro n hn
    simp [hn]
  · intro hl hr
    refine ⟨?_, ?_, ?_, ?_, ?_⟩ <;>
      simp [createWorktree, branchExistsLocally, setLocalBranch, hl, hr]
    intro n hn
    simp [hn]

/-- Witness for C1: the three resolution states on the concrete repository
`repoA`. -/
theorem claim_C1_branch_resolution_witness :
    createWorktree repoA "main" "../main"
      = (repoA, 5, ["git", "worktree", "add", "../main", "main"])
    ∧ (createWorktree repoA "dev" "../dev").1.localBranches "dev" = some 7
    ∧ (createWorktree repoA "dev" "../dev").2.1 = 7
    ∧ (createWorktree repoA "feat" "../feat").1.localBranches "feat" = some 3
    ∧ (createWorktree repoA "feat" "../feat").2.1 = 3 := by
  refine ⟨?_, ?_, ?_, ?_, ?_⟩
  · exact (claim_C1_branch_resolution repoA "main" "../main").1 5 (by simp [repoA])
  · exact ((claim_C1_branch_resolution repoA "dev" "../dev").2.1 7
      (by simp [repoA]) (by simp [repoA])).1
  · exact ((claim_C1_branch_resolution repoA "dev" "../dev").2.1 7
      (by simp [repoA]) (by simp [repoA])).2.2.2.2.1
  · exact ((claim_C1_branch_resolution repoA "feat" "../feat").2.2
      (by simp [repoA]) (by simp [repoA])).1
  · exact ((claim_C1_branch_resolution repoA "feat" "../feat").2.2
      (by simp [repoA]) (by simp [repoA])).2.2.2.1

/-- Claim C2: `CreateWorktree` (main.go) returns an error — and `main`
exits with status 1 — exactly when `initGitRepo` fails, the worktree
creation subprocess fails, or changing into the new worktree directory
fails; every other step failure leaves the run on the success path. -/
theorem claim_C2_fatal_conditions (st : StepResults) :
    ((runCreateWorktree st).err ≠ none ↔
      st.initErr ≠ none ∨ st.createErr ≠ none ∨ st.chdirErr ≠ none)
    ∧ (mainExitCode st = 1 ↔ (runCreateWorktree st).err ≠ none)
    ∧ (mainExitCode st = 0 ↔ (runCreateWorktree st).err = none) := by
  obtain ⟨i, p, c, nm, u, d, ch, v⟩ := st
  cases i <;> cases c <;> cases ch <;>
    simp [runCreateWorktree, mainExitCode]

/-- Claim C7: `copyWithCOW` (files.go) first ensures the destination's
parent directory exists (aborting before any `cp` attempt when that
fails), then tries the ordered strategy list, succeeding as soon as any
strategy succeeds — in particular when the preferred `-Rc` strategy fails
but the plain `-R` copy works — and produces the error naming source and
destination exactly when every strategy fails. -/
theorem claim_C7_copy_fallback (mkdirOk : Bool) (runCp : List String → Bool)
    (src dest : String) :
    (mkdirOk = false → copyWithCOW mkdirOk runCp src dest = (.error "mkdir failed", []))
    ∧ (mkdirOk = true →
        ((copyWithCOW mkdirOk runCp src dest).1 = .ok () ↔
          ∃ st ∈ copyStrategies, runCp st = true)
        ∧ ((∀ st ∈ copyStrategies, runCp st = false) →
            copyWithCOW mkdirOk runCp src dest =
              (.error ("failed to copy " ++ src ++ " to " ++ dest),
               [["-Rc"], ["-R", "--reflink"], ["-R"]]))
        ∧ (runCp ["-Rc"] = false → runCp ["-R"] = true →
            (copyWithCOW mkdirOk runCp src dest).1 = .ok ())) := by
  constructor
  · intro h
    simp [copyWithCOW, h]
  · intro h
    refine ⟨?_, ?_, ?_⟩
    · cases h1 : runCp ["-Rc"] <;> cases h2 : runCp ["-R", "--reflink"] <;>
        cases h3 : runCp ["-R"] <;>
        simp [copyWithCOW, tryStrategies, copyStrategies, h, h1, h2, h3]
    · intro hall
      have h1 := hall ["-Rc"] (by simp [copyStrategies])
      have h2 := hall ["-R", "--reflink"] (by simp [copyStrategies])
      have h3 := hall ["-R"] (by simp [copyStrategies])
      simp [copyWithCOW, tryStrategies, copyStrategies, h, h1, h2, h3]
    · intro h1 h3
      cases h2 : runCp ["-R", "--reflink"] <;>
        simp [copyWithCOW, tryStrategies, copyStrategies, h, h1, h2, h3]

/-- Witness for C7: with the parent directory created and only the plain
`-R` copy succeeding, the operation still succeeds. -/
theorem claim_C7_copy_fallback_witness :
    (copyWithCOW true (fun args => args == ["-R"]) ".env" "../wt/.env").1 = .ok () := by
  exact (((claim_C7_copy_fallback true (fun args => args == ["-R"])
    ".env" "../wt/.env").2 rfl).2.2) (by decide) (by decide)

/-- Claim C10: on success `initGitRepo` (git.go) has changed the process
working directory to the repository root discovered from the invocation
directory, so relative paths afterwards resolve against the root rather
than the directory the tool was invoked from. -/
theorem claim_C10_initGitRepo_chdir (detect : String → Option String)
    (chdirOk : String → Bool) (st : ProcState) (root : String) (st2 : ProcState)
    (h : initGitRepo detect chdirOk st = .ok (root, st2)) :
    st2.cwd = root ∧ detect st.cwd = some root
    ∧ ∀ rel : String, goJoin2 st2.cwd rel = goJoin2 root rel := by
  obtain ⟨cwd2⟩ := st2
  unfold initGitRepo at h
  cases hd : detect st.cwd with
  | none => rw [hd] at h; exact absurd h (by simp)
  | some r0 =>
    rw [hd] at h
    by_cases hc : chdirOk r0 = true
    · simp [hc] at h
      obtain ⟨h1, h2⟩ := h
      subst h1
      subst h2
      exact ⟨rfl, rfl, fun rel => rfl⟩
    · simp [hc] at h

/-- Witness for C10: a concrete detection oracle mapping `/repo/sub` to the
root `/repo`; after a successful `initGitRepo` the working directory is
`/repo`. -/
theorem claim_C10_initGitRepo_chdir_witness :
    (ProcState.mk "/repo").cwd = "/repo"
    ∧ (fun c => if c = "/repo/sub" then some "/repo" else none) "/repo/sub"
        = some "/repo" := by
  have h := claim_C10_initGitRepo_chdir
    (fun c => if c = "/repo/sub" then some "/repo" else none) (fun _ => true)
    ⟨"/repo/sub"⟩ "/repo" ⟨"/repo"⟩ (by simp [initGitRepo])
  exact ⟨h.1, h.2.1⟩

/-- Counterexample to claim C8 as stated: with verbose mode off, a pull
failure whose message does not mention `no upstream` (here a connection
failure) is non-fatal but produces no warning either — it is not
"surfaced as a warning". -/
theorem claim_C8_counterexample :
    (runCreateWorktree
        ⟨none, some "connection refused", none, none, none, none, none, false⟩).err
      = none
    ∧ (runCreateWorktree
        ⟨none, some "connection refused", none, none, none, none, none, false⟩).warnings
      = [] := by
  constructor <;> rfl

/-- Claim C8 (amended): a pull failure never makes `CreateWorktree`
fatal; a `no upstream` failure produces no warning at all, and any other
pull failure is surfaced as a warning exactly when verbose mode is on. -/
theorem claim_C8_pull_nonfatal (st : StepResults) (msg : String)
    (hinit : st.initErr = none) (hpull : st.pullErr = some msg)
    (huntracked : st.untrackedErr = none) :
    ((runCreateWorktree st).err ≠ none ↔
      st.createErr ≠ none ∨ st.chdirErr ≠ none)
    ∧ (containsSubStr msg "no upstream" = true →
        (runCreateWorktree st).warnings = [])
    ∧ (containsSubStr msg "no upstream" = false →
        ((runCreateWorktree st).warnings = ["Unable to pull: " ++ msg] ↔
          st.verbose = true)) := by
  obtain ⟨i, p, c, nm, u, d, ch, v⟩ := st
  simp only at hinit hpull huntracked
  subst hinit hpull huntracked
  refine ⟨?_, ?_, ?_⟩
  · cases c <;> cases ch <;> simp [runCreateWorktree]
  · intro hup
    cases c <;> cases ch <;> simp [runCreateWorktree, hup]
  · intro hup
    cases c <;> cases ch <;> cases v <;> simp [runCreateWorktree, hup]

/-- Witness for C8 (amended): concrete runs — a `no upstream` pull failure
is silent and non-fatal; another pull failure warns exactly in verbose
mode. -/
theorem claim_C8_pull_nonfatal_witness :
    (runCreateWorktree
        ⟨none, some "no upstream configured for current branch",
         none, none, none, none, none, true⟩).err = none
    ∧ (runCreateWorktree
        ⟨none, some "no upstream configured for current branch",
         none, none, none, none, none, true⟩).warnings = []
    ∧ ((runCreateWorktree
        ⟨none, some "connection refused",
         none, none, none, none, none, true⟩).warnings
        = ["Unable to pull: " ++ "connection refused"] ↔ True) := by
  have h1 := claim_C8_pull_nonfatal
    ⟨none, some "no upstream configured for current branch",
     none, none, none, none, none, true⟩
    "no upstream configured for current branch" rfl rfl rfl
  have h2 := claim_C8_pull_nonfatal
    ⟨none, some "connection refused",
     none, none, none, none, none, true⟩ "connection refused" rfl rfl rfl
  refine ⟨?_, h1.2.1 (by decide), ?_⟩
  · have := h1.1
    simp only at this
    by_contra hne
    exact absurd (this.mp hne) (by simp)
  · simp only [h2.2.2 (by decide)]

/-- The result list of `splitChar` is never empty. -/
theorem splitChar_ne_nil (sep : Char) (l : List Char) : splitChar sep l ≠ [] := by
  cases l with
  | nil => simp [splitChar]
  | cons c cs =>
    cases h : splitChar sep cs with
    | nil => simp [splitChar, h]
    | cons hd tl =>
      simp only [splitChar, h]
      cases hc : c == sep <;> simp [hc]

/-- `splitChar` yields the single empty field exactly on empty input. -/
theorem splitChar_eq_single_nil_iff (sep : Char) (l : List Char) :
    splitChar sep l = [[]] ↔ l = [] := by
  cases l with
  | nil => simp [splitChar]
  | cons c cs =>
    simp only [splitChar]
    cases h : splitChar sep cs with
    | nil => exact absurd h (splitChar_ne_nil sep cs)
    | cons hd tl =>
      cases hc : c == sep <;> simp [hc]

/-- The empty-output check of `findFilesWithFd` holds exactly for the
single empty field. -/
theorem fd_empty_check_iff (files : List (List Char)) (hne : files ≠ []) :
    (files.length == 1 && files.headD [' '] == []) = true ↔ files = [[]] := by
  match files with
  | [] => exact absurd rfl hne
  | [x] => simp [List.headD]
  | x :: y :: t => simp

/-- Claim C9: `findFilesWithFd` (files.go) returns the empty list — not a
one-element list holding the empty string — when the trimmed `fd` output
is empty, and otherwise one path per newline-delimited line of the
trimmed output. -/
theorem claim_C9_fd_output (output : String) :
    (goTrimSpace output.data = [] → findFilesWithFd output = [])
    ∧ (goTrimSpace output.data ≠ [] →
        findFilesWithFd output =
          (splitChar '\n' (goTrimSpace output.data)).map String.mk
        ∧ findFilesWithFd output ≠ []) := by
  constructor
  · intro h
    simp [findFilesWithFd, h, splitChar]
  · intro h
    have hne := splitChar_ne_nil '\n' (goTrimSpace output.data)
    have hnotsingle : splitChar '\n' (goTrimSpace output.data) ≠ [[]] := by
      intro hcontra
      exact h ((splitChar_eq_single_nil_iff '\n' (goTrimSpace output.data)).mp hcontra)
    have hcheck :
        ((splitChar '\n' (goTrimSpace output.data)).length == 1 &&
          (splitChar '\n' (goTrimSpace output.data)).headD [' '] == []) = false := by
      cases hc : ((splitChar '\n' (goTrimSpace output.data)).length == 1 &&
          (splitChar '\n' (goTrimSpace output.data)).headD [' '] == [])
      · rfl
      · exact absurd ((fd_empty_check_iff _ hne).mp hc) hnotsingle
    constructor
    · simp only [findFilesWithFd]
      rw [hcheck]
      simp
    · simp only [findFilesWithFd]
      rw [hcheck]
      simp [hne]

/-- Witness for C9: empty `fd` output yields `[]`, and a two-line output
yields the two paths. -/
theorem claim_C9_fd_output_witness :
    findFilesWithFd "" = [] ∧ findFilesWithFd "a\nb\n" = ["a", "b"] := by
  constructor
  · exact (claim_C9_fd_output "").1 (by decide)
  · have h := ((claim_C9_fd_output "a\nb\n").2 (by decide)).1
    rw [h]
    decide

mutual

/-- No file collected by the walk callback has a path containing
`node_modules`. -/
theorem walkNode_excludes : ∀ (re : String → Bool) (path : String) (t : FSTree)
    (p : String), p ∈ (walkNode re path t).1 →
    containsSubStr p "node_modules" = false
  | re, path, .file n, p, hp => by
    cases hc : containsSubStr path "node_modules" with
    | true => simp [walkNode, hc] at hp
    | false =>
      cases hre : re n with
      | false => simp [walkNode, hc, hre] at hp
      | true =>
        simp [walkNode, hc, hre] at hp
        subst hp
        exact hc
  | re, path, .dir n children, p, hp => by
    have hp2 : p ∈ (walkChildren re path children).1 := by
      simpa [walkNode] using hp
    exact walkChildren_excludes re path children p hp2

/-- No file collected while walking a list of children has a path
containing `node_modules`. -/
theorem walkChildren_excludes : ∀ (re : String → Bool) (path : String)
    (ts : List FSTree) (p : String), p ∈ (walkChildren re path ts).1 →
    containsSubStr p "node_modules" = false
  | re, path, [], p, hp => by simp [walkChildren] at hp
  | re, path, t :: ts, p, hp => by
    simp only [walkChildren, List.mem_append] at hp
    cases hp with
    | inl h => exact walkNode_excludes re (joinWalkPath path t.name) t p h
    | inr h => exact walkChildren_excludes re path ts p h

end

/-- Counterexample to claim C6 as stated: on a tree with a `node_modules`
directory holding `.env`, the walk callback is still invoked on the path
`node_modules/.env` — the fallback walk of `findFilesWithWalk` (files.go)
returns plain `nil` for such paths instead of `filepath.SkipDir`, so it
does descend into the dependency directory (while collecting nothing
there). -/
theorem claim_C6_counterexample :
    (findFilesWithWalk (fun _ => false)
        [FSTree.dir "node_modules" [FSTree.file ".env"]]).2
      = [".", "node_modules", "node_modules/.env"]
    ∧ "node_modules/.env" ∈ (findFilesWithWalk (fun _ => false)
        [FSTree.dir "node_modules" [FSTree.file ".env"]]).2
    ∧ (findFilesWithWalk (fun _ => false)
        [FSTree.dir "node_modules" [FSTree.file ".env"]]).1 = [] := by
  refine ⟨by decide, by decide, by decide⟩

/-- Claim C6 (amended): for every repository tree and matcher the walk
fallback returns no path containing `node_modules`, and the fd backend is
invoked with the `node_modules` exclusion arguments; the walk however
descends into the dependency directory, filtering its entries out of the
result rather than pruning the subtree. -/
theorem claim_C6_no_dependency_paths (re : String → Bool)
    (entries : List FSTree) (pattern : String) :
    ((findFilesWithWalk re entries).1.all
        fun p => !containsSubStr p "node_modules") = true
    ∧ "-E" ∈ fdArgs pattern ∧ "node_modules" ∈ fdArgs pattern := by
  refine ⟨?_, by simp [fdArgs], by simp [fdArgs]⟩
  rw [List.all_eq_true]
  intro p hp
  have h := walkChildren_excludes re "." entries p
    (by simpa [findFilesWithWalk] using hp)
  simp [h]

/-- `replaceList` with the one-character pair `/ → _` is the character-wise
replacement map. -/
theorem replaceList_single (l : List Char) :
    replaceList ['/'] ['_'] l = l.map fun c => if c = '/' then '_' else c := by
  induction l with
  | nil => simp [replaceList, replaceAux]
  | cons c cs ih =>
    by_cases hc : c = '/'
    · subst hc
      simpa [replaceList, replaceAux, startsWithList] using ih
    · simpa [replaceList, replaceAux, startsWithList, beq_iff_eq,
        Ne.symm hc, hc] using ih

/-- The sanitized directory name is the branch name with each `/` turned
into `_` and every other character untouched. -/
theorem sanitizeName_data (b : String) :
    (sanitizeName b).data = b.data.map fun c => if c = '/' then '_' else c := by
  simp [sanitizeName, replaceList_single]

/-- The sanitized name contains no path separator. -/
theorem sanitizeName_no_slash (b : String) : '/' ∉ (sanitizeName b).data := by
  rw [sanitizeName_data]
  intro hmem
  obtain ⟨c, _, he⟩ := List.mem_map.mp hmem
  by_cases h : c = '/' <;> simp [h] at he

/-- A non-empty branch name sanitizes to a non-empty directory name. -/
theorem sanitizeName_ne_nil (b : String) (h : b ≠ "") :
    (sanitizeName b).data ≠ [] := by
  rw [sanitizeName_data]
  intro hd
  apply h
  obtain ⟨bl⟩ := b
  simp at hd
  simp [hd]

/-- A branch name other than `.` sanitizes to something other than `.`. -/
theorem sanitizeName_ne_dot (b : String) (h : b ≠ ".") :
    (sanitizeName b).data ≠ ['.'] := by
  rw [sanitizeName_data]
  intro hm
  apply h
  obtain ⟨bl⟩ := b
  cases bl with
  | nil => simp at hm
  | cons c rest =>
    simp at hm
    obtain ⟨hc, hrest⟩ := hm
    by_cases hsl : c = '/'
    · simp [hsl] at hc
    · simp [hsl] at hc
      subst hc
      subst hrest
      rfl

/-- `splitChar` on a list without the separator yields one field. -/
theorem splitChar_no_sep (sep : Char) (l : List Char) (h : sep ∉ l) :
    splitChar sep l = [l] := by
  induction l with
  | nil => rfl
  | cons c cs ih =>
    have hc : c ≠ sep := fun he => h (he ▸ List.mem_cons_self c cs)
    have hcs : sep ∉ cs := fun hm => h (List.mem_cons_of_mem c hm)
    simp only [splitChar, ih hcs]
    simp [hc]

/-- `splitChar` peels off a separator-free head field. -/
theorem splitChar_append_sep (sep : Char) (a l : List Char) (ha : sep ∉ a) :
    splitChar sep (a ++ sep :: l) = a :: splitChar sep l := by
  induction a with
  | nil =>
    cases h : splitChar sep l with
    | nil => exact absurd h (splitChar_ne_nil sep l)
    | cons hd tl => simp [splitChar, h]
  | cons c cs ih =>
    have hc : c ≠ sep := fun he => ha (he ▸ List.mem_cons_self c cs)
    have hcs : sep ∉ cs := fun hm => ha (List.mem_cons_of_mem c hm)
    simp only [List.cons_append, splitChar, List.append_eq]
    rw [ih hcs]
    simp [hc]

/-- After a leading `..` component, `Clean` keeps any further non-trivial
component as is. -/
theorem cleanStep_after_dotdot (comp : List Char) (h1 : comp ≠ [])
    (h2 : comp ≠ ['.']) :
    cleanStep false [['.', '.']] comp = [['.', '.'], comp] := by
  by_cases h3 : comp = ['.', '.']
  · subst h3
    rfl
  · simp [cleanStep, beq_iff_eq, h1, h2, h3]

/-- `filepath.Join("..", d)` for a directory name `d` that is non-empty,
not `.`, and free of separators is literally `"../" ++ d`. -/
theorem goJoin2_dotdot (d : String) (h1 : d.data ≠ []) (h2 : d.data ≠ ['.'])
    (h3 : '/' ∉ d.data) : goJoin2 ".." d = "../" ++ d := by
  obtain ⟨dl⟩ := d
  simp only at h1 h2 h3
  have hjoin : goJoin2 ".." ⟨dl⟩ = goClean ⟨'.' :: '.' :: '/' :: dl⟩ := by
    simp [goJoin2, h1]
  rw [hjoin]
  have hsplit : splitChar '/' ('.' :: '.' :: '/' :: dl)
      = ['.', '.'] :: [dl] := by
    have h4 := splitChar_append_sep '/' ['.', '.'] dl (by decide)
    rw [splitChar_no_sep '/' dl h3] at h4
    simpa using h4
  have hfold : ([['.', '.'], dl] : List (List Char)).foldl (cleanStep false) []
      = [['.', '.'], dl] := by
    simp only [List.foldl]
    rw [show cleanStep false [] ['.', '.'] = [['.', '.']] from rfl]
    rw [cleanStep_after_dotdot dl h1 h2]
  simp only [goClean]
  rw [hsplit]
  simp [hfold]
  rfl

/-- Counterexample to claim C3 as stated: for the degenerate branch name
`.` the computed path is `..` (because `filepath.Join` cleans `../.` to
`..`), not `../` followed by the sanitized name. -/
theorem claim_C3_counterexample :
    worktreePathOf "." = ".."
    ∧ worktreePathOf "." ≠ "../" ++ sanitizeName "."
    ∧ worktreePathOf "" = ".."
    ∧ worktreePathOf "" ≠ "../" ++ sanitizeName "" := by
  refine ⟨by decide, by decide, by decide, by decide⟩

/-- Claim C3 (amended): for every branch name other than the degenerate
inputs `""` and `"."`, the worktree directory name is the branch name with
every `/` replaced by `_` and no other character altered, and the
worktree path is the sibling path `../<sanitized-name>`. -/
theorem claim_C3_worktree_path (b : String) (h1 : b ≠ "") (h2 : b ≠ ".") :
    (sanitizeName b).data = (b.data.map fun c => if c = '/' then '_' else c)
    ∧ worktreePathOf b = "../" ++ sanitizeName b := by
  refine ⟨sanitizeName_data b, ?_⟩
  unfold worktreePathOf
  exact goJoin2_dotdot (sanitizeName b) (sanitizeName_ne_nil b h1)
    (sanitizeName_ne_dot b h2) (sanitizeName_no_slash b)

/-- Witness for C3 (amended): branch `feature/x` produces the sibling
directory `../feature_x`. -/
theorem claim_C3_worktree_path_witness :
    (sanitizeName "feature/x").data
        = ("feature/x".data.map fun c => if c = '/' then '_' else c)
    ∧ worktreePathOf "feature/x" = "../" ++ sanitizeName "feature/x"
    ∧ worktreePathOf "feature/x" = "../feature_x" := by
  have h := claim_C3_worktree_path "feature/x" (by decide) (by decide)
  exact ⟨h.1, h.2, by decide⟩

/-- Claim C4 (evaluation of the code at the failing input): with no user
configuration the compiled default pattern accepts the six intended
names and rejects `.environment` and `foo.env.bak`, but the dots left
unescaped in `\.env.local`, `\.mise.toml` and `mise.toml` act as
wildcards, so the file names `mise_toml` and `.env_local` also match —
contradicting the claim that no other file name matches. -/
theorem claim_C4_default_pattern_eval :
    (([".env", ".envrc", ".env.local", ".mise.toml", ".tool-versions",
        "mise.toml"].all fun s => reMatch (getUntrackedFilesPattern none) s) = true)
    ∧ reMatch (getUntrackedFilesPattern none) ".environment" = false
    ∧ reMatch (getUntrackedFilesPattern none) "foo.env.bak" = false
    ∧ reMatch (getUntrackedFilesPattern none) "mise_toml" = true
    ∧ reMatch (getUntrackedFilesPattern none) ".env_local" = true
    ∧ "mise_toml" ∉ [".env", ".envrc", ".env.local", ".mise.toml",
        ".tool-versions", "mise.toml"]
    ∧ ".env_local" ∉ [".env", ".envrc", ".env.local", ".mise.toml",
        ".tool-versions", "mise.toml"] := by
  refine ⟨by decide, by decide, by decide, by decide, by decide, by decide, by decide⟩

/-- An empty atom list matches only the empty string. -/
theorem fragMatches_nil_iff (l : List Char) :
    fragMatches [] l = true ↔ l = [] := by
  cases l <;> simp [fragMatches]

/-- A leading literal atom consumes exactly that character. -/
theorem fragMatches_lit_iff (c : Char) (as : List RAtom) (l : List Char) :
    fragMatches (.lit c :: as) l = true ↔
      ∃ ds, l = c :: ds ∧ fragMatches as ds = true := by
  cases l with
  | nil => simp [fragMatches]
  | cons d ds =>
    constructor
    · intro h
      simp [fragMatches] at h
      exact ⟨ds, by rw [h.1], h.2⟩
    · rintro ⟨ds2, he, hm⟩
      injection he with he1 he2
      subst he1
      subst he2
      simp [fragMatches, hm]

/-- A leading wildcard atom consumes any single non-newline character. -/
theorem fragMatches_any_iff (as : List RAtom) (l : List Char) :
    fragMatches (.anyc :: as) l = true ↔
      ∃ d ds, d ≠ '\n' ∧ l = d :: ds ∧ fragMatches as ds = true := by
  cases l with
  | nil => simp [fragMatches]
  | cons d ds =>
    constructor
    · intro h
      simp [fragMatches] at h
      exact ⟨d, ds, h.1, rfl, h.2⟩
    · rintro ⟨d2, ds2, hne, he, hm⟩
      injection he with he1 he2
      subst he1
      subst he2
      simp [fragMatches, hm, hne]

/-- Counterexample to claim C5 as stated: the configured entries are raw
regex fragments, so with configuration `[".env", "mise.toml"]` the
produced pattern `^(.env|mise.toml)$` also matches `xenv` (the unescaped
dot of `.env` is a wildcard), which is neither of the two literal names. -/
theorem claim_C5_counterexample :
    getUntrackedFilesPattern (some ".env\nmise.toml\n") = "^(.env|mise.toml)$"
    ∧ reMatch (getUntrackedFilesPattern (some ".env\nmise.toml\n")) "xenv" = true
    ∧ "xenv" ≠ ".env" ∧ "xenv" ≠ "mise.toml" := by
  refine ⟨by decide, by decide, by decide, by decide⟩

/-- Claim C5 (amended): with configured entries `[".env", "mise.toml"]`
the pattern is built from those entries alone — the default list is fully
overridden — and, the entries being raw regex fragments, it matches
exactly the strings of the form `?env` and `mise?toml` where `?` is one
non-newline character. -/
theorem claim_C5_custom_pattern (s : String) :
    getUntrackedFilesPattern (some ".env\nmise.toml\n") = "^(.env|mise.toml)$"
    ∧ (reMatch (getUntrackedFilesPattern (some ".env\nmise.toml\n")) s = true ↔
        (∃ c : Char, c ≠ '\n' ∧ s = String.mk [c, 'e', 'n', 'v'])
        ∨ (∃ c : Char, c ≠ '\n' ∧
            s = String.mk ['m', 'i', 's', 'e', c, 't', 'o', 'm', 'l'])) := by
  refine ⟨by decide, ?_⟩
  obtain ⟨sl⟩ := s
  have hre : reMatch (getUntrackedFilesPattern (some ".env\nmise.toml\n")) ⟨sl⟩
      = (fragMatches [.anyc, .lit 'e', .lit 'n', .lit 'v'] sl
        || (fragMatches [.lit 'm', .lit 'i', .lit 's', .lit 'e', .anyc,
              .lit 't', .lit 'o', .lit 'm', .lit 'l'] sl || false)) := rfl
  rw [hre]
  simp only [Bool.or_false, Bool.or_eq_true]
  simp [fragMatches_any_iff, fragMatches_lit_iff, fragMatches_nil_iff,
    String.ext_iff]
  constructor
  · rintro (⟨d, hd, rfl⟩ | ⟨ds, rfl, ds1, rfl, ds2, rfl, ds3, rfl, d, hd, rfl⟩)
    · exact Or.inl ⟨d, hd, rfl⟩
    · exact Or.inr ⟨d, hd, rfl⟩
  · rintro (⟨c, hc, rfl⟩ | ⟨c, hc, rfl⟩)
    · exact Or.inl ⟨c, hc, rfl⟩
    · exact Or.inr ⟨_, rfl, _, rfl, _, rfl, _, rfl, c, hc, rfl⟩

end GoWorktree
